import Mathlib

/-!
Verification of the quantum-volume statistics core
(`src/utils.py` and `src/qtm_qv/analysis_functions.py`).

The numeric routines are embedded over exact arithmetic: dictionary-based
fidelity conversion and error aggregation over `ℚ` (Python `None` becomes
`Option.none`), the confidence-interval formulas over `ℝ` (so that
`sqrt`, `erf` and quantile interpolation can be treated exactly).
-/

open Real

/-- Embeds `convert` from `src/utils.py` (lines 114-159): converts a fidelity
figure of kind `start` to kind `stop` over Hilbert-space dimension `d`.
The Python function returns `None` (after printing a message) for unsupported
kind pairs; this is embedded as `Option.none`. -/
def convert (value : ℚ) (d : ℚ) (start stop : String) : Option ℚ :=
  if start = stop then some value
  else if start = "avg" ∧ stop = "dep" then some ((d * value - 1) / (d - 1))
  else if start = "avg" ∧ stop = "proc" then some (((d + 1) * value - 1) / d)
  else if start = "dep" ∧ stop = "avg" then some (((d - 1) * value + 1) / d)
  else if start = "dep" ∧ stop = "proc" then some (((d ^ 2 - 1) * value + 1) / d ^ 2)
  else if start = "proc" ∧ stop = "avg" then some ((d * value + 1) / (d + 1))
  else if start = "proc" ∧ stop = "dep" then some ((d ^ 2 * value - 1) / (d ^ 2 - 1))
  else none

/-- Embeds the error dictionary consumed by `estimate_errors` in
`src/utils.py`: each named channel is either absent (`none`, i.e. the key is
not in the Python dict) or present with a magnitude. -/
structure ErrorDict where
  sq_dep : Option ℚ := none
  sq_coh : Option ℚ := none
  sq_dph : Option ℚ := none
  tq_dep : Option ℚ := none
  tq_coh : Option ℚ := none
  tq_dph : Option ℚ := none
  tq_cross : Option ℚ := none
  meas : Option ℚ := none
  prep : Option ℚ := none

/-- Embeds one guarded accumulation step of `estimate_errors`
(`if key in error_dict: acc *= convert(1 - error_dict[key], d, 'avg', 'dep')`). -/
def mulChannel (acc : Option ℚ) (d : ℚ) (entry : Option ℚ) : Option ℚ :=
  match entry with
  | none => acc
  | some e => acc.bind fun a => (convert (1 - e) d "avg" "dep").map fun c => a * c

/-- Embeds `estimate_errors` from `src/utils.py` (lines 185-212): multiplies
the present channels into two depolarizing accumulators (`tq_dep` and `tq_coh`
over `d = 4`; `sq_dep`, `sq_coh`, `sq_dph` and also `tq_dph` over `d = 2`),
round-trips the single-qubit term through process fidelity with a square, and
converts the product back to an average fidelity. -/
def estimate_errors (err : ErrorDict) : Option ℚ :=
  let tq1 := mulChannel (some 1) 4 err.tq_dep
  let tq2 := mulChannel tq1 4 err.tq_coh
  let sq1 := mulChannel (some 1) 2 err.sq_dep
  let sq2 := mulChannel sq1 2 err.sq_coh
  let sq3 := mulChannel sq2 2 err.sq_dph
  let tq3 := mulChannel tq2 2 err.tq_dph
  (sq3.bind fun s => convert s 2 "dep" "proc").bind fun sp =>
    (convert (sp ^ 2) 4 "proc" "dep").bind fun sd =>
      tq3.bind fun t => convert (sd * t) 4 "dep" "avg"

/-- Embeds one bootstrap resample of `bootstrap` in
`src/qtm_qv/analysis_functions.py` (lines 78-86): given one row `ind` of the
index matrix `np.random.randint(0, ntrials, size=(reps, ntrials))` and the
corresponding row `draws` of binomial outcomes
`np.random.binomial(resampled_shots, resampled_probs)`, the resampled success
is the pooled sum of the binomial draws divided by the pooled sum of the drawn
trials' shot counts. -/
def resampled_success (shots : List ℕ) (ind draws : List ℕ) : ℚ :=
  (draws.sum : ℚ) / (((ind.map fun i => shots.getD i 0).sum : ℕ) : ℚ)

/-- Embeds `original_bounds` from `src/qtm_qv/analysis_functions.py`
(lines 22-30): the two-sigma Wald interval around `success`. -/
noncomputable def original_bounds (success : ℝ) (trials : ℕ) : ℝ × ℝ :=
  let sigma := Real.sqrt (success * (1 - success) / trials)
  (success - 2 * sigma, success + 2 * sigma)

/-- Embeds `scipy.special.erf`, the Gauss error function, called by
`bootstrap_bounds` in `src/qtm_qv/analysis_functions.py`. -/
noncomputable def erf (x : ℝ) : ℝ :=
  2 / Real.sqrt π * ∫ t in (0:ℝ)..x, Real.exp (-t ^ 2)

/-- Modelled from the spec: the standard normal cumulative distribution
function Φ, through which the spec states the bootstrap quantile levels. -/
noncomputable def NormalCDF (x : ℝ) : ℝ :=
  1 / 2 + (Real.sqrt (2 * π))⁻¹ * ∫ t in (0:ℝ)..x, Real.exp (-t ^ 2 / 2)

/-- Embeds `np.quantile(a, q)` with its default linear interpolation, as used
by `bootstrap_bounds`: sort the sample, take the virtual index `q·(n-1)` and
interpolate linearly between the two neighbouring order statistics. (NumPy
rejects an empty sample; the embedding returns 0 there, a case no claim
touches.) -/
noncomputable def np_quantile (l : List ℝ) (q : ℝ) : ℝ :=
  let s := l.insertionSort (· ≤ ·)
  match s with
  | [] => 0
  | _ :: _ =>
    let n := s.length
    let h := q * ((n - 1 : ℕ) : ℝ)
    let i := min (n - 1) (⌊h⌋.toNat)
    let j := min (n - 1) (i + 1)
    s.getD i 0 + (h - ((i : ℕ) : ℝ)) * (s.getD j 0 - s.getD i 0)

/-- Embeds `bootstrap_bounds` from `src/qtm_qv/analysis_functions.py`
(lines 33-53), with the resampled-success distribution `success` (the random
output of `bootstrap`) supplied as an argument and the per-trial heavy-output
and shot counts given as sequences indexed by trial number. -/
noncomputable def bootstrap_bounds (success : List ℝ) (heavy shots : ℕ → ℝ)
    (ntrials : ℕ) : ℝ × ℝ :=
  let qv_mean := (∑ i ∈ Finset.range ntrials, heavy i / shots i) / ntrials
  (2 * qv_mean - np_quantile success (1 / 2 + erf (Real.sqrt 2) / 2),
   2 * qv_mean - np_quantile success (1 / 2 - erf (Real.sqrt 2) / 2))

/-- Embeds the `ntrials` parameter handling of `bootstrap_bounds`: the Python
parameter defaults to `None`, and `bootstrap_bounds` evaluates
`range(ntrials)` without first resolving `None` to the available trial count
(only the inner `bootstrap` call resolves it, in its own local variable), so
`range(None)` raises `TypeError`; that crash is embedded as `none`. -/
noncomputable def bootstrap_bounds_opt (success : List ℝ) (heavy shots : ℕ → ℝ)
    (ntrials : Option ℕ) : Option (ℝ × ℝ) :=
  match ntrials with
  | none => none
  | some n => some (bootstrap_bounds success heavy shots n)

/-! ## Claim theorems for the conversion and aggregation routines -/

/-- C5: for every value `v` and dimension `d ∈ {2, 4}`, `convert` returns
exactly the listed closed form on each of the six supported ordered kind
pairs, returns `v` unchanged when the two kinds coincide, and in particular
`convert 0.99 4 "avg" "dep" = (4·0.99 - 1)/3`. -/
theorem convert_closed_forms (v d : ℚ) (hd : d = 2 ∨ d = 4) :
    convert v d "avg" "dep" = some ((d * v - 1) / (d - 1)) ∧
    convert v d "avg" "proc" = some (((d + 1) * v - 1) / d) ∧
    convert v d "dep" "avg" = some (((d - 1) * v + 1) / d) ∧
    convert v d "dep" "proc" = some (((d ^ 2 - 1) * v + 1) / d ^ 2) ∧
    convert v d "proc" "avg" = some ((d * v + 1) / (d + 1)) ∧
    convert v d "proc" "dep" = some ((d ^ 2 * v - 1) / (d ^ 2 - 1)) ∧
    (∀ k : String, convert v d k k = some v) ∧
    convert (99 / 100) 4 "avg" "dep" = some ((4 * (99 / 100) - 1) / 3) := by
  refine ⟨by simp [convert], by simp [convert], by simp [convert], by simp [convert],
    by simp [convert], by simp [convert], fun k => by simp [convert],
    by simp [convert]; norm_num⟩

/-- Closed witness for `convert_closed_forms` at `v = 1`, `d = 2`. -/
theorem convert_closed_forms_witness :
    ((2 : ℚ) = 2 ∨ (2 : ℚ) = 4) ∧
    convert 1 2 "avg" "dep" = some ((2 * 1 - 1) / (2 - 1)) :=
  ⟨Or.inl rfl, (convert_closed_forms 1 2 (Or.inl rfl)).1⟩

/-- C6: converting a value between two distinct supported kinds and back
returns the value exactly, for dimensions 2 and 4. -/
theorem convert_roundtrip (v d : ℚ) (hd : d = 2 ∨ d = 4) (a b : String)
    (ha : a = "avg" ∨ a = "dep" ∨ a = "proc")
    (hb : b = "avg" ∨ b = "dep" ∨ b = "proc") (hab : a ≠ b) :
    (convert v d a b).bind (fun w => convert w d b a) = some v := by
  rcases ha with rfl | rfl | rfl <;> rcases hb with rfl | rfl | rfl <;>
    first
      | exact absurd rfl hab
      | (rcases hd with rfl | rfl <;> (simp [convert]; try ring_nf))

/-- Closed witness for `convert_roundtrip` at `v = 1/3`, `d = 2`,
`a = "avg"`, `b = "dep"`. -/
theorem convert_roundtrip_witness :
    (("avg" : String) ≠ "dep") ∧
    (convert (1 / 3 : ℚ) 2 "avg" "dep").bind (fun w => convert w 2 "dep" "avg") =
      some (1 / 3 : ℚ) :=
  ⟨by decide, convert_roundtrip (1 / 3) 2 (Or.inl rfl) "avg" "dep" (Or.inl rfl)
    (Or.inr (Or.inl rfl)) (by decide)⟩

/-- C7: on any pair of distinct kind strings outside the six supported
conversions, `convert` returns the `none` sentinel and never a numeric
value. -/
theorem convert_unsupported_none (v d : ℚ) (s e : String) (hne : s ≠ e)
    (h1 : ¬(s = "avg" ∧ e = "dep")) (h2 : ¬(s = "avg" ∧ e = "proc"))
    (h3 : ¬(s = "dep" ∧ e = "avg")) (h4 : ¬(s = "dep" ∧ e = "proc"))
    (h5 : ¬(s = "proc" ∧ e = "avg")) (h6 : ¬(s = "proc" ∧ e = "dep")) :
    convert v d s e = none ∧ ∀ q : ℚ, convert v d s e ≠ some q := by
  have hnone : convert v d s e = none := by
    unfold convert
    rw [if_neg hne, if_neg h1, if_neg h2, if_neg h3, if_neg h4, if_neg h5, if_neg h6]
  exact ⟨hnone, fun q hq => by rw [hnone] at hq; exact Option.noConfusion hq⟩

/-- Closed witness for `convert_unsupported_none` at the unknown kind pair
`("foo", "bar")`. -/
theorem convert_unsupported_none_witness :
    (("foo" : String) ≠ "bar") ∧ convert 1 2 "foo" "bar" = none :=
  ⟨by decide, (convert_unsupported_none 1 2 "foo" "bar" (by decide) (by decide) (by decide)
    (by decide) (by decide) (by decide) (by decide)).1⟩

/-- C9: `estimate_errors` reads only the six gate channels; two error
dictionaries agreeing on `sq_dep`, `sq_coh`, `sq_dph`, `tq_dep`, `tq_coh` and
`tq_dph` (but possibly differing on `tq_cross`, `meas` and `prep`) produce the
same slice fidelity. -/
theorem estimate_errors_independent (e1 e2 : ErrorDict)
    (h1 : e1.sq_dep = e2.sq_dep) (h2 : e1.sq_coh = e2.sq_coh)
    (h3 : e1.sq_dph = e2.sq_dph) (h4 : e1.tq_dep = e2.tq_dep)
    (h5 : e1.tq_coh = e2.tq_coh) (h6 : e1.tq_dph = e2.tq_dph) :
    estimate_errors e1 = estimate_errors e2 := by
  unfold estimate_errors
  rw [h1, h2, h3, h4, h5, h6]

/-- Closed witness for `estimate_errors_independent`: two dictionaries that
differ only on `tq_cross`, `meas` and `prep` give the same result. -/
theorem estimate_errors_independent_witness :
    ({ sq_dep := some (1/100), tq_cross := some (3/4), meas := some (1/2),
       prep := some (1/5) } : ErrorDict).sq_dep =
      ({ sq_dep := some (1/100) } : ErrorDict).sq_dep ∧
    estimate_errors
        { sq_dep := some (1/100), tq_cross := some (3/4), meas := some (1/2),
          prep := some (1/5) } =
      estimate_errors { sq_dep := some (1/100) } :=
  ⟨rfl, estimate_errors_independent _ _ rfl rfl rfl rfl rfl rfl⟩

/-- C10: in `estimate_errors` the `tq_dph` channel is converted over dimension
`d = 2` before entering the two-qubit depolarizing accumulator: with only
`tq_dph = ε` set, the slice fidelity is `(3·f + 1)/4` for the dimension-2
factor `f = (2(1-ε) - 1)/(2 - 1)`, and at `ε = 1/10` this differs from the
value the dimension-4 factor `(4(1-ε) - 1)/3` would give. -/
theorem estimate_errors_tq_dph_dim2 (eps : ℚ) :
    estimate_errors { tq_dph := some eps } =
      some ((3 * ((2 * (1 - eps) - 1) / (2 - 1)) + 1) / 4) ∧
    estimate_errors { tq_dph := some (1/10) } ≠
      some ((3 * ((4 * (1 - (1/10 : ℚ)) - 1) / (4 - 1)) + 1) / 4) := by
  constructor
  · simp [estimate_errors, mulChannel, convert]
    ring_nf
  · simp [estimate_errors, mulChannel, convert]
    norm_num

/-- C3: each bootstrap resample pools the binomial draws over the drawn trials
and divides by the pooled drawn shot counts (a shots-weighted average); at
`shots = [1,3]`, drawn indices `[0,1]` and binomial outcomes `[1,0]` this
differs from the unweighted mean of the per-trial resampled fractions. -/
theorem bootstrap_resample_pooled (shots : List ℕ) (ind draws : List ℕ)
    (hind : ∀ i ∈ ind, i < shots.length) :
    resampled_success shots ind draws =
      (draws.sum : ℚ) / (((ind.map fun i => shots.getD i 0).sum : ℕ) : ℚ) ∧
    resampled_success [1, 3] [0, 1] [1, 0] ≠ ((1 : ℚ) / 1 + 0 / 3) / 2 :=
  ⟨rfl, by norm_num [resampled_success]⟩

/-- Closed witness for `bootstrap_resample_pooled` at `shots = [1,3]`,
`ind = [0,1]`, `draws = [1,0]`. -/
theorem bootstrap_resample_pooled_witness :
    (∀ i ∈ [0, 1], i < ([1, 3] : List ℕ).length) ∧
    resampled_success [1, 3] [0, 1] [1, 0] =
      (([1, 0] : List ℕ).sum : ℚ) /
        (((([0, 1] : List ℕ).map fun i => ([1, 3] : List ℕ).getD i 0).sum : ℕ) : ℚ) :=
  ⟨by decide, (bootstrap_resample_pooled [1, 3] [0, 1] [1, 0] (by decide)).1⟩

/-- C2: `original_bounds p n` is the pair `p ± 2√(p(1-p)/n)`, and for
`p ∈ (0,1)` and `n > 0` the interval strictly brackets `p` and has width
`4√(p(1-p)/n)`, with no clipping to `[0,1]`. -/
theorem original_bounds_spec (p : ℝ) (n : ℕ) (h0 : 0 < p) (h1 : p < 1) (hn : 0 < n) :
    original_bounds p n =
      (p - 2 * Real.sqrt (p * (1 - p) / n), p + 2 * Real.sqrt (p * (1 - p) / n)) ∧
    (original_bounds p n).1 < p ∧ p < (original_bounds p n).2 ∧
    (original_bounds p n).2 - (original_bounds p n).1 =
      4 * Real.sqrt (p * (1 - p) / n) := by
  have hnR : (0 : ℝ) < n := by exact_mod_cast hn
  have hpos : 0 < p * (1 - p) / n := div_pos (mul_pos h0 (by linarith)) hnR
  have hs : 0 < Real.sqrt (p * (1 - p) / n) := Real.sqrt_pos.mpr hpos
  refine ⟨rfl, ?_, ?_, ?_⟩ <;> simp only [original_bounds] <;> linarith

/-- Closed witness for `original_bounds_spec` at `p = 1/2`, `n = 4`. -/
theorem original_bounds_spec_witness :
    (0 : ℝ) < 1/2 ∧ (1/2 : ℝ) < 1 ∧ 0 < 4 ∧
    ((original_bounds (1/2) 4).1 < 1/2 ∧ (1/2 : ℝ) < (original_bounds (1/2) 4).2) :=
  ⟨by norm_num, by norm_num, by norm_num,
    (original_bounds_spec (1/2) 4 (by norm_num) (by norm_num) (by norm_num)).2.1,
    (original_bounds_spec (1/2) 4 (by norm_num) (by norm_num) (by norm_num)).2.2.1⟩

/-- C4 (code bug): calling `bootstrap_bounds` with `ntrials` unspecified does
not fall back to the full trial count; the Python code evaluates
`range(None)` and raises `TypeError` (embedded as `none`), unlike any call
with an explicit trial count, which returns a bound. -/
theorem bootstrap_bounds_none_crashes (success : List ℝ) (heavy shots : ℕ → ℝ)
    (ntrials : ℕ) :
    bootstrap_bounds_opt success heavy shots none = none ∧
    bootstrap_bounds_opt success heavy shots (some ntrials) ≠ none :=
  ⟨rfl, fun h => Option.noConfusion h⟩

/-! ## Analytic groundwork for the bootstrap quantile levels

The source computes its quantile levels with `erf(sqrt(2))`, while the spec
writes them with the standard normal CDF at `sqrt(2)`. Deciding claim C1
requires separating the two, which rests on the strict inequality
`1 < 2 erf(sqrt 2) - erf 1`, proved below from elementary bounds on the
Gaussian integrand. -/

lemma exp_taylor_lb {x : ℝ} (hx : |x| ≤ 1) :
    1 + x + x ^ 2 / 2 + x ^ 3 / 6 - 5 * x ^ 4 / 96 ≤ Real.exp x := by
  have h := Real.exp_bound hx (n := 4) (by norm_num)
  have hsum : ∑ m ∈ Finset.range 4, x ^ m / m.factorial = 1 + x + x ^ 2 / 2 + x ^ 3 / 6 := by
    simp [Finset.sum_range_succ, Nat.factorial]
  rw [hsum] at h
  have h4 : |x| ^ 4 = x ^ 4 := by
    rw [← abs_pow]; exact abs_of_nonneg (by positivity)
  obtain ⟨hu, hl⟩ := abs_sub_le_iff.mp h
  rw [h4] at hl
  norm_num [Nat.factorial] at hl
  linarith

lemma exp_taylor_ub {x : ℝ} (hx : |x| ≤ 1) :
    Real.exp x ≤ 1 + x + x ^ 2 / 2 + x ^ 3 / 6 + 5 * x ^ 4 / 96 := by
  have h := Real.exp_bound hx (n := 4) (by norm_num)
  have hsum : ∑ m ∈ Finset.range 4, x ^ m / m.factorial = 1 + x + x ^ 2 / 2 + x ^ 3 / 6 := by
    simp [Finset.sum_range_succ, Nat.factorial]
  rw [hsum] at h
  have h4 : |x| ^ 4 = x ^ 4 := by
    rw [← abs_pow]; exact abs_of_nonneg (by positivity)
  obtain ⟨hu, hl⟩ := abs_sub_le_iff.mp h
  rw [h4] at hu
  norm_num [Nat.factorial] at hu
  linarith

lemma exp_neg_two_gt : (27/200 : ℝ) < Real.exp (-2) := by
  have h : Real.exp 2 < 200/27 := by
    have h2 : Real.exp 2 = Real.exp 1 * Real.exp 1 := by
      rw [← Real.exp_add]; norm_num
    nlinarith [Real.exp_one_lt_d9, Real.exp_pos 1]
  have hp : (0:ℝ) < Real.exp 2 := Real.exp_pos 2
  rw [Real.exp_neg]
  nlinarith [mul_inv_cancel₀ hp.ne', inv_pos.mpr hp]

lemma exp_neg_one_lt : Real.exp (-1) < (3679/10000 : ℝ) := by
  have h : (10000/3679 : ℝ) < Real.exp 1 := by
    nlinarith [Real.exp_one_gt_d9]
  have hp : (0:ℝ) < Real.exp 1 := Real.exp_pos 1
  rw [Real.exp_neg]
  nlinarith [mul_inv_cancel₀ hp.ne', inv_pos.mpr hp]

lemma exp_neg_121_gt : (29/100 : ℝ) < Real.exp (-(121/100)) := by
  have hsplit : Real.exp (-(121/100)) = Real.exp (79/100) * Real.exp (-2) := by
    rw [← Real.exp_add]; norm_num
  have h79 : (21639/10000 : ℝ) ≤ Real.exp (79/100) := by
    have := exp_taylor_lb (x := 79/100) (by rw [abs_of_nonneg] <;> norm_num)
    nlinarith [this]
  rw [hsplit]
  nlinarith [exp_neg_two_gt, Real.exp_pos (79/100 : ℝ), Real.exp_pos (-2 : ℝ)]

lemma exp_neg_2516_gt : (1/5 : ℝ) < Real.exp (-(25/16)) := by
  have hsplit : Real.exp (-(25/16)) = Real.exp (7/16) * Real.exp (-2) := by
    rw [← Real.exp_add]; norm_num
  have h716 : (24531/16000 : ℝ) ≤ Real.exp (7/16) := by
    have := Real.quadratic_le_exp_of_nonneg (x := 7/16) (by norm_num)
    nlinarith [this]
  rw [hsplit]
  nlinarith [exp_neg_two_gt, Real.exp_pos (7/16 : ℝ), Real.exp_pos (-2 : ℝ)]

lemma exp_neg_121_lt : Real.exp (-(121/100)) < (3679/12100 : ℝ) := by
  have hsplit : Real.exp (-1) = Real.exp (-(121/100)) * Real.exp (21/100) := by
    rw [← Real.exp_add]; norm_num
  have h21 : (121/100 : ℝ) ≤ Real.exp (21/100) := by
    nlinarith [Real.add_one_le_exp (21/100 : ℝ)]
  nlinarith [exp_neg_one_lt, Real.exp_pos (-(121/100) : ℝ), Real.exp_pos (21/100 : ℝ), hsplit]

lemma exp_neg_2516_lt : Real.exp (-(25/16)) < (59/250 : ℝ) := by
  have hsplit : Real.exp (-1) = Real.exp (-(25/16)) * Real.exp (9/16) := by
    rw [← Real.exp_add]; norm_num
  have h916 : (25/16 : ℝ) ≤ Real.exp (9/16) := by
    nlinarith [Real.add_one_le_exp (9/16 : ℝ)]
  nlinarith [exp_neg_one_lt, Real.exp_pos (-(25/16) : ℝ), Real.exp_pos (9/16 : ℝ), hsplit]

lemma gaussian_cont : Continuous fun t : ℝ => Real.exp (-t ^ 2) := by
  fun_prop

lemma gaussian_ii (a b : ℝ) :
    IntervalIntegrable (fun t : ℝ => Real.exp (-t ^ 2)) MeasureTheory.volume a b :=
  gaussian_cont.intervalIntegrable a b

lemma gauss_piece_lb {a b m : ℝ} (hab : a ≤ b) (h0 : 0 ≤ a)
    (hm : m ≤ Real.exp (-b ^ 2)) :
    (b - a) * m ≤ ∫ t in a..b, Real.exp (-t ^ 2) := by
  have hconst : (∫ _t in a..b, m) = (b - a) * m := by
    simp [smul_eq_mul]
  rw [← hconst]
  refine intervalIntegral.integral_mono_on hab intervalIntegrable_const (gaussian_ii a b) ?_
  intro t ht
  have h1 : t ^ 2 ≤ b ^ 2 := by nlinarith [ht.1, ht.2]
  calc m ≤ Real.exp (-b ^ 2) := hm
  _ ≤ Real.exp (-t ^ 2) := Real.exp_le_exp.mpr (by linarith)

lemma gauss_piece_ub {a b M : ℝ} (hab : a ≤ b) (h0 : 0 ≤ a)
    (hM : Real.exp (-a ^ 2) ≤ M) :
    (∫ t in a..b, Real.exp (-t ^ 2)) ≤ (b - a) * M := by
  have hconst : (∫ _t in a..b, M) = (b - a) * M := by
    simp [smul_eq_mul]
  rw [← hconst]
  refine intervalIntegral.integral_mono_on hab (gaussian_ii a b) intervalIntegrable_const ?_
  intro t ht
  have h1 : a ^ 2 ≤ t ^ 2 := by nlinarith [ht.1, ht.2]
  calc Real.exp (-t ^ 2) ≤ Real.exp (-a ^ 2) := Real.exp_le_exp.mpr (by linarith)
  _ ≤ M := hM

lemma poly_lb_integral :
    ∫ t in (0:ℝ)..1, (1 - t^2 + t^4/2 - t^6/6 - 5*t^8/96) = 22289/30240 := by
  have hderiv : ∀ t ∈ Set.uIcc (0:ℝ) 1,
      HasDerivAt (fun t : ℝ => t - t^3/3 + t^5/10 - t^7/42 - 5*t^9/864)
        (1 - t^2 + t^4/2 - t^6/6 - 5*t^8/96) t := by
    intro t _
    have h := ((((hasDerivAt_id t).sub ((hasDerivAt_pow 3 t).div_const 3)).add
      ((hasDerivAt_pow 5 t).div_const 10)).sub
      ((hasDerivAt_pow 7 t).div_const 42)).sub
      (((hasDerivAt_pow 9 t).const_mul (5:ℝ)).div_const 864)
    convert h using 1
    push_cast
    ring
  rw [intervalIntegral.integral_eq_sub_of_hasDerivAt hderiv (by
    apply Continuous.intervalIntegrable
    continuity)]
  norm_num

lemma poly_ub_integral :
    ∫ t in (0:ℝ)..1, (1 - t^2 + t^4/2 - t^6/6 + 5*t^8/96) = 22639/30240 := by
  have hderiv : ∀ t ∈ Set.uIcc (0:ℝ) 1,
      HasDerivAt (fun t : ℝ => t - t^3/3 + t^5/10 - t^7/42 + 5*t^9/864)
        (1 - t^2 + t^4/2 - t^6/6 + 5*t^8/96) t := by
    intro t _
    have h := ((((hasDerivAt_id t).sub ((hasDerivAt_pow 3 t).div_const 3)).add
      ((hasDerivAt_pow 5 t).div_const 10)).sub
      ((hasDerivAt_pow 7 t).div_const 42)).add
      (((hasDerivAt_pow 9 t).const_mul (5:ℝ)).div_const 864)
    convert h using 1
    push_cast
    ring
  rw [intervalIntegral.integral_eq_sub_of_hasDerivAt hderiv (by
    apply Continuous.intervalIntegrable
    continuity)]
  norm_num

lemma B_lb : (22289/30240 : ℝ) ≤ ∫ t in (0:ℝ)..1, Real.exp (-t ^ 2) := by
  rw [← poly_lb_integral]
  refine intervalIntegral.integral_mono_on (by norm_num)
    (by apply Continuous.intervalIntegrable; continuity) (gaussian_ii 0 1) ?_
  intro t ht
  have ht0 : 0 ≤ t := ht.1
  have ht1 : t ≤ 1 := ht.2
  have hx : |(-t^2 : ℝ)| ≤ 1 := by
    rw [abs_neg, abs_of_nonneg (by positivity)]
    nlinarith
  have h := exp_taylor_lb hx
  calc 1 - t^2 + t^4/2 - t^6/6 - 5*t^8/96
      = 1 + (-t^2) + (-t^2)^2/2 + (-t^2)^3/6 - 5*(-t^2)^4/96 := by ring
  _ ≤ Real.exp (-t^2) := h

lemma B_ub : (∫ t in (0:ℝ)..1, Real.exp (-t ^ 2)) ≤ 22639/30240 := by
  rw [← poly_ub_integral]
  refine intervalIntegral.integral_mono_on (by norm_num) (gaussian_ii 0 1)
    (by apply Continuous.intervalIntegrable; continuity) ?_
  intro t ht
  have ht0 : 0 ≤ t := ht.1
  have ht1 : t ≤ 1 := ht.2
  have hx : |(-t^2 : ℝ)| ≤ 1 := by
    rw [abs_neg, abs_of_nonneg (by positivity)]
    nlinarith
  have h := exp_taylor_ub hx
  calc Real.exp (-t^2) ≤ 1 + (-t^2) + (-t^2)^2/2 + (-t^2)^3/6 + 5*(-t^2)^4/96 := h
  _ = 1 - t^2 + t^4/2 - t^6/6 + 5*t^8/96 := by ring

lemma sqrt_two_gt : (141421/100000 : ℝ) < Real.sqrt 2 := by
  have h : ((141421/100000 : ℝ)) ^ 2 < 2 := by norm_num
  nlinarith [Real.sq_sqrt (by norm_num : (0:ℝ) ≤ 2), Real.sqrt_nonneg 2]

lemma sqrt_two_lt : Real.sqrt 2 < (141422/100000 : ℝ) := by
  have h : (2:ℝ) < ((141422/100000 : ℝ)) ^ 2 := by norm_num
  nlinarith [Real.sq_sqrt (by norm_num : (0:ℝ) ≤ 2), Real.sqrt_nonneg 2]

lemma sqrt_pi_lt : Real.sqrt π < (1775/1000 : ℝ) := by
  have h : π < ((1775/1000 : ℝ)) ^ 2 := by nlinarith [Real.pi_lt_d2]
  nlinarith [Real.sq_sqrt Real.pi_pos.le, Real.sqrt_nonneg π]

lemma sqrt_pi_gt : (1772/1000 : ℝ) < Real.sqrt π := by
  have h : ((1772/1000 : ℝ)) ^ 2 < π := by nlinarith [Real.pi_gt_d2]
  nlinarith [Real.sq_sqrt Real.pi_pos.le, Real.sqrt_nonneg π]

lemma sqrt_two_ge_54 : (5/4 : ℝ) ≤ Real.sqrt 2 := by
  nlinarith [sqrt_two_gt]

lemma C_split :
    (∫ t in (1:ℝ)..(Real.sqrt 2), Real.exp (-t ^ 2)) =
      (∫ t in (1:ℝ)..(11/10), Real.exp (-t ^ 2)) +
      (∫ t in (11/10:ℝ)..(5/4), Real.exp (-t ^ 2)) +
      (∫ t in (5/4:ℝ)..(Real.sqrt 2), Real.exp (-t ^ 2)) := by
  rw [intervalIntegral.integral_add_adjacent_intervals (gaussian_ii 1 (11/10))
    (gaussian_ii (11/10) (5/4)),
    intervalIntegral.integral_add_adjacent_intervals (gaussian_ii 1 (5/4))
    (gaussian_ii (5/4) (Real.sqrt 2))]

lemma C_lb :
    (1/10 : ℝ) * (29/100) + (3/20) * (1/5) + (Real.sqrt 2 - 5/4) * (27/200) ≤
      ∫ t in (1:ℝ)..(Real.sqrt 2), Real.exp (-t ^ 2) := by
  rw [C_split]
  have p1 : ((11/10 : ℝ) - 1) * (29/100) ≤ ∫ t in (1:ℝ)..(11/10), Real.exp (-t ^ 2) := by
    refine gauss_piece_lb (by norm_num) (by norm_num) ?_
    have : ((11/10 : ℝ)) ^ 2 = 121/100 := by norm_num
    rw [this]
    exact exp_neg_121_gt.le
  have p2 : ((5/4 : ℝ) - 11/10) * (1/5) ≤ ∫ t in (11/10:ℝ)..(5/4), Real.exp (-t ^ 2) := by
    refine gauss_piece_lb (by norm_num) (by norm_num) ?_
    have : ((5/4 : ℝ)) ^ 2 = 25/16 := by norm_num
    rw [this]
    exact exp_neg_2516_gt.le
  have p3 : (Real.sqrt 2 - 5/4) * (27/200) ≤
      ∫ t in (5/4:ℝ)..(Real.sqrt 2), Real.exp (-t ^ 2) := by
    refine gauss_piece_lb sqrt_two_ge_54 (by norm_num) ?_
    rw [Real.sq_sqrt (by norm_num : (0:ℝ) ≤ 2)]
    exact exp_neg_two_gt.le
  linarith

lemma C_ub :
    (∫ t in (1:ℝ)..(Real.sqrt 2), Real.exp (-t ^ 2)) ≤
      (1/10 : ℝ) * (3679/10000) + (3/20) * (3679/12100) + (Real.sqrt 2 - 5/4) * (59/250) := by
  rw [C_split]
  have p1 : (∫ t in (1:ℝ)..(11/10), Real.exp (-t ^ 2)) ≤
      ((11/10 : ℝ) - 1) * (3679/10000) := by
    refine gauss_piece_ub (by norm_num) (by norm_num) ?_
    have : ((1:ℝ)) ^ 2 = 1 := by norm_num
    rw [this]
    exact exp_neg_one_lt.le
  have p2 : (∫ t in (11/10:ℝ)..(5/4), Real.exp (-t ^ 2)) ≤
      ((5/4 : ℝ) - 11/10) * (3679/12100) := by
    refine gauss_piece_ub (by norm_num) (by norm_num) ?_
    have : ((11/10 : ℝ)) ^ 2 = 121/100 := by norm_num
    rw [this]
    exact exp_neg_121_lt.le
  have p3 : (∫ t in (5/4:ℝ)..(Real.sqrt 2), Real.exp (-t ^ 2)) ≤
      (Real.sqrt 2 - 5/4) * (59/250) := by
    refine gauss_piece_ub sqrt_two_ge_54 (by norm_num) ?_
    have : ((5/4 : ℝ)) ^ 2 = 25/16 := by norm_num
    rw [this]
    exact exp_neg_2516_lt.le
  linarith

lemma A_split :
    (∫ t in (0:ℝ)..(Real.sqrt 2), Real.exp (-t ^ 2)) =
      (∫ t in (0:ℝ)..1, Real.exp (-t ^ 2)) +
      (∫ t in (1:ℝ)..(Real.sqrt 2), Real.exp (-t ^ 2)) :=
  (intervalIntegral.integral_add_adjacent_intervals (gaussian_ii 0 1)
    (gaussian_ii 1 (Real.sqrt 2))).symm

lemma erf_one_pos : 0 < erf 1 := by
  unfold erf
  have hπ : 0 < Real.sqrt π := Real.sqrt_pos.mpr Real.pi_pos
  have := B_lb
  positivity

lemma erf_one_lt_one : erf 1 < 1 := by
  unfold erf
  have hπ : 0 < Real.sqrt π := Real.sqrt_pos.mpr Real.pi_pos
  have h1 : (∫ t in (0:ℝ)..1, Real.exp (-t ^ 2)) ≤ 22639/30240 := B_ub
  have h2 : (22639/30240 : ℝ) < Real.sqrt π / 2 := by nlinarith [sqrt_pi_gt]
  rw [div_mul_eq_mul_div, mul_comm, mul_div_assoc]
  calc (∫ t in (0:ℝ)..1, Real.exp (-t ^ 2)) * (2 / Real.sqrt π)
      < (Real.sqrt π / 2) * (2 / Real.sqrt π) := by
        apply mul_lt_mul_of_pos_right (lt_of_le_of_lt h1 h2)
        positivity
  _ = 1 := by field_simp

lemma erf_sqrt_two_pos : 0 < erf (Real.sqrt 2) := by
  unfold erf
  have hπ : 0 < Real.sqrt π := Real.sqrt_pos.mpr Real.pi_pos
  have hC : (0:ℝ) ≤ ∫ t in (1:ℝ)..(Real.sqrt 2), Real.exp (-t ^ 2) := by
    have := C_lb
    nlinarith [sqrt_two_gt]
  have hB := B_lb
  rw [A_split]
  have : (0:ℝ) < (∫ t in (0:ℝ)..1, Real.exp (-t ^ 2)) +
      (∫ t in (1:ℝ)..(Real.sqrt 2), Real.exp (-t ^ 2)) := by linarith
  positivity

lemma erf_sqrt_two_lt_one : erf (Real.sqrt 2) < 1 := by
  unfold erf
  have hπ : 0 < Real.sqrt π := Real.sqrt_pos.mpr Real.pi_pos
  have hA : (∫ t in (0:ℝ)..(Real.sqrt 2), Real.exp (-t ^ 2)) < Real.sqrt π / 2 := by
    rw [A_split]
    have h1 := B_ub
    have h2 := C_ub
    nlinarith [sqrt_two_lt, sqrt_pi_gt]
  rw [div_mul_eq_mul_div, mul_comm, mul_div_assoc]
  calc (∫ t in (0:ℝ)..(Real.sqrt 2), Real.exp (-t ^ 2)) * (2 / Real.sqrt π)
      < (Real.sqrt π / 2) * (2 / Real.sqrt π) := by
        apply mul_lt_mul_of_pos_right hA
        positivity
  _ = 1 := by field_simp

lemma erf_key_ineq : 1 < 2 * erf (Real.sqrt 2) - erf 1 := by
  unfold erf
  have hπ : 0 < Real.sqrt π := Real.sqrt_pos.mpr Real.pi_pos
  rw [A_split]
  have hB := B_lb
  have hC := C_lb
  have hkey : Real.sqrt π / 2 <
      (∫ t in (0:ℝ)..1, Real.exp (-t ^ 2)) +
        2 * ∫ t in (1:ℝ)..(Real.sqrt 2), Real.exp (-t ^ 2) := by
    nlinarith [sqrt_two_gt, sqrt_pi_lt]
  have hmul := mul_lt_mul_of_pos_left hkey (by positivity : (0:ℝ) < 2 / Real.sqrt π)
  have hone : 2 / Real.sqrt π * (Real.sqrt π / 2) = 1 := by field_simp
  nlinarith [hmul, hone]

lemma NormalCDF_eq_erf (x : ℝ) : NormalCDF x = (1 + erf (x / Real.sqrt 2)) / 2 := by
  unfold NormalCDF erf
  have h2 : (0:ℝ) < Real.sqrt 2 := Real.sqrt_pos.mpr (by norm_num)
  have hπ : (0:ℝ) < Real.sqrt π := Real.sqrt_pos.mpr Real.pi_pos
  have hint : ∀ t : ℝ,
      Real.exp (-t ^ 2 / 2) = (fun u : ℝ => Real.exp (-u ^ 2)) (t / Real.sqrt 2) := by
    intro t
    simp only
    congr 1
    rw [div_pow, Real.sq_sqrt (by norm_num : (0:ℝ) ≤ 2)]
    ring
  have hsub : (∫ t in (0:ℝ)..x, Real.exp (-t ^ 2 / 2)) =
      Real.sqrt 2 • ∫ u in (0:ℝ)..(x / Real.sqrt 2), Real.exp (-u ^ 2) := by
    rw [show (∫ t in (0:ℝ)..x, Real.exp (-t ^ 2 / 2)) =
        ∫ t in (0:ℝ)..x, (fun u : ℝ => Real.exp (-u ^ 2)) (t / Real.sqrt 2) from by
      simp only [← hint]]
    rw [intervalIntegral.integral_comp_div (fun u : ℝ => Real.exp (-u ^ 2)) h2.ne']
    rw [zero_div]
  rw [hsub]
  have hsqrt : Real.sqrt (2 * π) = Real.sqrt 2 * Real.sqrt π :=
    Real.sqrt_mul (by norm_num) π
  rw [hsqrt, smul_eq_mul]
  field_simp
  ring

lemma NormalCDF_sqrt_two : NormalCDF (Real.sqrt 2) = (1 + erf 1) / 2 := by
  have h2 : (0:ℝ) < Real.sqrt 2 := Real.sqrt_pos.mpr (by norm_num)
  rw [NormalCDF_eq_erf, div_self h2.ne']

lemma normcdf_lt_erf_at_sqrt_two : NormalCDF (Real.sqrt 2) < erf (Real.sqrt 2) := by
  rw [NormalCDF_sqrt_two]
  linarith [erf_key_ineq]

lemma np_quantile_pair {q : ℝ} (h0 : 0 ≤ q) (h1 : q < 1) :
    np_quantile [0, 1] q = q := by
  have hsort : List.insertionSort (fun a b : ℝ => a ≤ b) [0, 1] = [0, 1] := by
    simp [List.insertionSort, List.orderedInsert]
  have hfloor : ⌊q⌋ = 0 := Int.floor_eq_zero_iff.mpr ⟨h0, h1⟩
  simp only [np_quantile, hsort]
  norm_num [hfloor]

/-- C1 (amended): the bound returned by `bootstrap_bounds` is
`(2·qv_mean − u, 2·qv_mean − l)`, where `qv_mean` is the arithmetic mean of
the first `ntrials` trials' raw success fractions (not the resampled mean)
and `u`, `l` are the quantiles of the resampled-success distribution at
levels `1/2 + erf(√2)/2` and `1/2 − erf(√2)/2`, with `erf` the Gauss error
function (equivalently, levels `Φ(2)` and `1 − Φ(2)`) — not at the levels
`1/2 ± Φ(√2)/2` stated by the claim. -/
theorem bootstrap_bounds_erf_levels (success : List ℝ) (heavy shots : ℕ → ℝ)
    (ntrials : ℕ) :
    bootstrap_bounds success heavy shots ntrials =
      (2 * ((∑ i ∈ Finset.range ntrials, heavy i / shots i) / ntrials) -
         np_quantile success (1 / 2 + erf (Real.sqrt 2) / 2),
       2 * ((∑ i ∈ Finset.range ntrials, heavy i / shots i) / ntrials) -
         np_quantile success (1 / 2 - erf (Real.sqrt 2) / 2)) := rfl

/-- C1 (counterexample): at the resampled distribution `[0, 1]` with one trial
of 1 heavy output in 2 shots (`qv_mean = 1/2`), the pair computed by
`bootstrap_bounds` differs from the pair the claim prescribes, whose
quantile levels are `1/2 ± Φ(√2)/2` with `Φ` the standard normal CDF:
`erf(√2) ≈ 0.9545` while `Φ(√2) ≈ 0.9214`. -/
theorem bootstrap_bounds_normcdf_counterexample :
    bootstrap_bounds [0, 1] (fun _ => 1) (fun _ => 2) 1 ≠
      (2 * ((∑ i ∈ Finset.range 1, (fun _ => (1:ℝ)) i / (fun _ => (2:ℝ)) i) / 1) -
         np_quantile [0, 1] (1 / 2 + NormalCDF (Real.sqrt 2) / 2),
       2 * ((∑ i ∈ Finset.range 1, (fun _ => (1:ℝ)) i / (fun _ => (2:ℝ)) i) / 1) -
         np_quantile [0, 1] (1 / 2 - NormalCDF (Real.sqrt 2) / 2)) := by
  intro hEq
  have hfst := congrArg Prod.fst hEq
  have hq1 : np_quantile [0, 1] (1 / 2 + erf (Real.sqrt 2) / 2) =
      1 / 2 + erf (Real.sqrt 2) / 2 :=
    np_quantile_pair (by linarith [erf_sqrt_two_pos]) (by linarith [erf_sqrt_two_lt_one])
  have hn0 : 0 < NormalCDF (Real.sqrt 2) := by
    rw [NormalCDF_sqrt_two]; linarith [erf_one_pos]
  have hn1 : NormalCDF (Real.sqrt 2) < 1 := by
    rw [NormalCDF_sqrt_two]; linarith [erf_one_lt_one]
  have hq2 : np_quantile [0, 1] (1 / 2 + NormalCDF (Real.sqrt 2) / 2) =
      1 / 2 + NormalCDF (Real.sqrt 2) / 2 :=
    np_quantile_pair (by linarith) (by linarith)
  simp only [bootstrap_bounds] at hfst
  norm_num [Finset.sum_range_one, hq1, hq2] at hfst
  have := normcdf_lt_erf_at_sqrt_two
  linarith
